import Mathlib

/-!
Verification of the semester-planner core against its specification.

The development shallowly embeds the computational core of the repository:

* `calculateStudentPositions` and `parseStudentData` from
  `src/lib/parsers/student-parser.ts`;
* the timetable grid construction `courseSchedule` and the professor
  schedule parsing inside `handleProfessorSelect` from the timetable
  component (`src/unnamed/part_002`).

JavaScript numbers used for geometry are modelled as rationals (`Rat`),
JavaScript `Map` as an insertion-ordered association list with
overwrite-in-place semantics, sparse JavaScript arrays as lists of
`Option`, and the timetable grid object as a total function from
slot identifier and day index to an optional course.

The configuration constants (`COURSE_BOX`, `PHASE`, `TIMETABLE`) live in
config files that are not part of the sources at hand; following the
specification they are modelled abstractly, as parameters.
-/

namespace SemesterPlanner

/-- A curriculum course as far as the student-plan and timetable code
reads it: identifier, name and credit count. -/
structure Course where
  id : String
  name : String
  credits : Nat
  deriving DecidableEq, Repr

/-- The `CourseStatus` enum from the student-plan types. -/
inductive CourseStatus where
  | pending
  | inProgress
  | completed
  | failed
  | exempted
  | planned
  deriving DecidableEq, Repr

/-- A course in the student's personal plan: the wrapped curriculum
course, a status, an optional numeric grade and an optional class-section
code.  The grade string of the raw record is modelled already parsed, as
an optional rational. -/
structure StudentCourse where
  course : Course
  status : CourseStatus
  grade : Option Rat := none
  «class» : Option String := none
  deriving DecidableEq, Repr

/-- A semester of the student plan: sequential number, ordered course
list and derived credit total. -/
structure StudentSemester where
  number : Nat
  courses : List StudentCourse
  totalCredits : Nat
  deriving DecidableEq, Repr

/-- The student plan as consumed by the positioning code: the ordered
list of semesters. -/
structure StudentPlan where
  semesters : List StudentSemester
  deriving DecidableEq, Repr

/-- A derived visual position (`CoursePosition`): course identifier,
coordinates, box size and the ghost flag. -/
structure CoursePosition where
  courseId : String
  x : Rat
  y : Rat
  width : Rat
  height : Rat
  isGhost : Bool := false
  deriving DecidableEq, Repr

/-- Modelled from the spec: the `COURSE_BOX` and `PHASE` configuration
constants imported from `@/styles/visualization`, a file that is not
among the sources.  The fields are, in order: `COURSE_BOX.MIN_WIDTH`,
`COURSE_BOX.WIDTH_FACTOR`, `COURSE_BOX.SPACING_Y`, `COURSE_BOX.HEIGHT`,
`PHASE.BOXES_PER_COLUMN` and `PHASE.TOTAL_SEMESTERS`. -/
structure VisualConfig where
  minWidth : Rat
  widthFactor : Rat
  spacingY : Rat
  boxHeight : Rat
  boxesPerColumn : Nat
  totalSemesters : Nat
  deriving DecidableEq, Repr

/-! ## Student plan positioning (`calculateStudentPositions`) -/

/-- The position pushed for the course at course index `j` of the
semester at plan index `i` (`student-parser.ts`, lines 59-65). -/
def mkRealPosition (cfg : VisualConfig) (phaseWidth boxWidth : Rat)
    (i j : Nat) (c : StudentCourse) : CoursePosition :=
  { courseId := c.course.id
    x := (i : Rat) * phaseWidth + (phaseWidth - boxWidth) / 2
    y := (j : Rat) * cfg.spacingY + cfg.spacingY
    width := boxWidth
    height := cfg.boxHeight
    isGhost := false }

/-- The ghost position pushed for empty slot `slot` of the semester
numbered `semNumber` at plan index `i` (`student-parser.ts`,
lines 73-80). -/
def mkGhostPosition (cfg : VisualConfig) (phaseWidth boxWidth : Rat)
    (i semNumber : Nat) (slot : Nat) : CoursePosition :=
  { courseId := "ghost-" ++ toString semNumber ++ "-" ++ toString slot
    x := (i : Rat) * phaseWidth + (phaseWidth - boxWidth) / 2
    y := (slot : Rat) * cfg.spacingY + cfg.spacingY
    width := boxWidth
    height := cfg.boxHeight
    isGhost := true }

/-- The positions pushed by the `semester.courses.forEach` loop, with `j`
the running course index. -/
def realPositions (cfg : VisualConfig) (phaseWidth boxWidth : Rat)
    (i : Nat) : Nat → List StudentCourse → List CoursePosition
  | _, [] => []
  | j, c :: rest =>
    mkRealPosition cfg phaseWidth boxWidth i j c ::
      realPositions cfg phaseWidth boxWidth i (j + 1) rest

/-- The ghost positions pushed by the
`for (let i = semester.courses.length; i < PHASE.BOXES_PER_COLUMN; i++)`
loop, for a semester with `k` courses. -/
def ghostPositions (cfg : VisualConfig) (phaseWidth boxWidth : Rat)
    (i semNumber k : Nat) : List CoursePosition :=
  (List.range' k (cfg.boxesPerColumn - k)).map
    (mkGhostPosition cfg phaseWidth boxWidth i semNumber)

/-- All positions pushed while visiting the semester at plan index `i`:
the real courses in list order, then the ghost padding. -/
def semesterBlock (cfg : VisualConfig) (phaseWidth boxWidth : Rat)
    (i : Nat) (sem : StudentSemester) : List CoursePosition :=
  realPositions cfg phaseWidth boxWidth i 0 sem.courses ++
    ghostPositions cfg phaseWidth boxWidth i sem.number sem.courses.length

/-- The `studentPlan.semesters.forEach` traversal, with `i` the running
semester index. -/
def positionsFrom (cfg : VisualConfig) (phaseWidth boxWidth : Rat) :
    Nat → List StudentSemester → List CoursePosition
  | _, [] => []
  | i, sem :: rest =>
    semesterBlock cfg phaseWidth boxWidth i sem ++
      positionsFrom cfg phaseWidth boxWidth (i + 1) rest

/-- JavaScript `Map.set` on an insertion-ordered association list:
overwrite in place when the key is present, append otherwise. -/
def mapSet (m : List (String × StudentCourse)) (k : String)
    (v : StudentCourse) : List (String × StudentCourse) :=
  if m.any (fun p => p.1 == k) then
    m.map (fun p => if p.1 == k then (k, v) else p)
  else m ++ [(k, v)]

/-- JavaScript `Map.get` on the association-list model. -/
def mapLookup (m : List (String × StudentCourse)) (k : String) :
    Option StudentCourse :=
  (m.find? (fun p => p.1 == k)).map (fun p => p.2)

/-- `calculateStudentPositions` (`student-parser.ts`, lines 27-87):
box width from the phase width, one position per course plus ghost
padding per semester, and the courseId-keyed map of the real courses.
The source's guard for a `null` course entry cannot fire in this typed
model and is omitted. -/
def calculateStudentPositions (cfg : VisualConfig) (studentPlan : StudentPlan)
    (phaseWidth : Rat) :
    List CoursePosition × List (String × StudentCourse) :=
  let boxWidth := max cfg.minWidth (phaseWidth * cfg.widthFactor)
  (positionsFrom cfg phaseWidth boxWidth 0 studentPlan.semesters,
    (studentPlan.semesters.flatMap (fun s => s.courses)).foldl
      (fun m c => mapSet m c.course.id c) [])

/-! ### Structural lemmas about the positioning traversal -/

theorem positionsFrom_append (cfg : VisualConfig) (pw bw : Rat) :
    ∀ (l₁ l₂ : List StudentSemester) (n : Nat),
      positionsFrom cfg pw bw n (l₁ ++ l₂) =
        positionsFrom cfg pw bw n l₁ ++
          positionsFrom cfg pw bw (n + l₁.length) l₂ := by
  intro l₁
  induction l₁ with
  | nil => intro l₂ n; simp [positionsFrom]
  | cons s t ih =>
    intro l₂ n
    simp only [List.cons_append, positionsFrom, List.length_cons, List.append_eq]
    rw [ih, List.append_assoc, show n + (t.length + 1) = n + 1 + t.length from by omega]

theorem list_eq_take_cons_drop {α : Type} :
    ∀ (l : List α) (i : Nat) (x : α), l[i]? = some x →
      l = l.take i ++ x :: l.drop (i + 1) := by
  intro l
  induction l with
  | nil => intro i x h; simp at h
  | cons a t ih =>
    intro i x h
    cases i with
    | zero =>
      simp only [List.getElem?_cons_zero, Option.some.injEq] at h
      subst h
      rfl
    | succ n =>
      simp only [List.getElem?_cons_succ] at h
      simp only [List.take_succ_cons, List.drop_succ_cons, List.cons_append,
        List.cons.injEq]
      exact ⟨trivial, ih n x h⟩

theorem realPositions_length (cfg : VisualConfig) (pw bw : Rat) (i : Nat) :
    ∀ (cs : List StudentCourse) (j : Nat),
      (realPositions cfg pw bw i j cs).length = cs.length := by
  intro cs
  induction cs with
  | nil => intro j; rfl
  | cons c t ih => intro j; simp [realPositions, ih]

theorem ghostPositions_length (cfg : VisualConfig) (pw bw : Rat)
    (i semNumber k : Nat) :
    (ghostPositions cfg pw bw i semNumber k).length =
      cfg.boxesPerColumn - k := by
  simp [ghostPositions]

theorem semesterBlock_length (cfg : VisualConfig) (pw bw : Rat) (i : Nat)
    (sem : StudentSemester) :
    (semesterBlock cfg pw bw i sem).length =
      max sem.courses.length cfg.boxesPerColumn := by
  simp [semesterBlock, realPositions_length, ghostPositions_length]
  omega

theorem positionsFrom_length (cfg : VisualConfig) (pw bw : Rat) :
    ∀ (l : List StudentSemester) (n : Nat),
      (positionsFrom cfg pw bw n l).length =
        (l.map (fun s => max s.courses.length cfg.boxesPerColumn)).sum := by
  intro l
  induction l with
  | nil => intro n; rfl
  | cons s t ih =>
    intro n
    simp [positionsFrom, semesterBlock_length, ih]

theorem realPositions_getElem (cfg : VisualConfig) (pw bw : Rat) (i : Nat) :
    ∀ (cs : List StudentCourse) (j0 j : Nat) (c : StudentCourse),
      cs[j]? = some c →
        (realPositions cfg pw bw i j0 cs)[j]? =
          some (mkRealPosition cfg pw bw i (j0 + j) c) := by
  intro cs
  induction cs with
  | nil => intro j0 j c h; simp at h
  | cons a t ih =>
    intro j0 j c h
    cases j with
    | zero => simp at h; simp [realPositions, h]
    | succ n =>
      simp only [List.getElem?_cons_succ] at h
      have := ih (j0 + 1) n c h
      simp only [realPositions, List.getElem?_cons_succ, this]
      congr 2
      omega

theorem realPositions_filter_map (cfg : VisualConfig) (pw bw : Rat) (i : Nat) :
    ∀ (cs : List StudentCourse) (j : Nat),
      ((realPositions cfg pw bw i j cs).filter (fun p => !p.isGhost)).map
          (fun p => p.courseId) =
        cs.map (fun c => c.course.id) := by
  intro cs
  induction cs with
  | nil => intro j; rfl
  | cons c t ih =>
    intro j
    simp [realPositions, mkRealPosition, List.filter_cons, ih]

theorem ghostPositions_filter (cfg : VisualConfig) (pw bw : Rat)
    (i semNumber k : Nat) :
    (ghostPositions cfg pw bw i semNumber k).filter (fun p => !p.isGhost) = [] := by
  rw [List.filter_eq_nil_iff]
  intro p hp
  simp only [ghostPositions, List.mem_map] at hp
  obtain ⟨slot, _, rfl⟩ := hp
  simp [mkGhostPosition]

theorem positionsFrom_filter_map (cfg : VisualConfig) (pw bw : Rat) :
    ∀ (l : List StudentSemester) (n : Nat),
      ((positionsFrom cfg pw bw n l).filter (fun p => !p.isGhost)).map
          (fun p => p.courseId) =
        (l.flatMap (fun s => s.courses)).map (fun c => c.course.id) := by
  intro l
  induction l with
  | nil => intro n; rfl
  | cons s t ih =>
    intro n
    simp only [positionsFrom, semesterBlock, List.filter_append, List.map_append,
      List.flatMap_cons, realPositions_filter_map, ghostPositions_filter,
      List.append_nil, ih]

/-! ### Lookup semantics of the course map -/

theorem find?_cons_pos {α : Type} (p : α → Bool) (a : α) (l : List α)
    (h : p a = true) : (a :: l).find? p = some a := by
  simp [List.find?_cons, h]

theorem find?_cons_neg {α : Type} (p : α → Bool) (a : α) (l : List α)
    (h : p a = false) : (a :: l).find? p = l.find? p := by
  simp [List.find?_cons, h]

theorem find?_map_ne (k q : String) (v : StudentCourse) (hne : k ≠ q) :
    ∀ (t : List (String × StudentCourse)),
      (t.map (fun p => if p.1 == q then (q, v) else p)).find?
          (fun p => p.1 == k) =
        t.find? (fun p => p.1 == k) := by
  intro t
  induction t with
  | nil => rfl
  | cons p t ih =>
    rw [List.map_cons]
    by_cases hq : p.1 = q
    · have h1 : (if p.1 == q then (q, v) else p) = (q, v) := by simp [hq]
      have h2 : (((q, v) : String × StudentCourse).1 == k) = false := by
        simp only [beq_eq_false_iff_ne, ne_eq]
        exact fun hqk => hne hqk.symm
      have h3 : (p.1 == k) = false := by
        simp only [beq_eq_false_iff_ne, ne_eq, hq]
        exact fun hqk => hne hqk.symm
      rw [h1, find?_cons_neg (fun p : String × StudentCourse => p.1 == k) _ _ h2,
        find?_cons_neg (fun p : String × StudentCourse => p.1 == k) _ _ h3, ih]
    · have h1 : (if p.1 == q then (q, v) else p) = p := by simp [hq]
      rw [h1]
      cases hpk : (p.1 == k) with
      | true =>
        rw [find?_cons_pos (fun p : String × StudentCourse => p.1 == k) _ _ hpk,
          find?_cons_pos (fun p : String × StudentCourse => p.1 == k) _ _ hpk]
      | false =>
        rw [find?_cons_neg (fun p : String × StudentCourse => p.1 == k) _ _ hpk,
          find?_cons_neg (fun p : String × StudentCourse => p.1 == k) _ _ hpk, ih]

theorem find?_map_self (q : String) (v : StudentCourse) :
    ∀ (t : List (String × StudentCourse)),
      t.any (fun p => p.1 == q) = true →
        (t.map (fun p => if p.1 == q then (q, v) else p)).find?
            (fun p => p.1 == q) =
          some (q, v) := by
  intro t
  induction t with
  | nil => intro h; simp at h
  | cons p t ih =>
    intro h
    rw [List.map_cons]
    by_cases hq : p.1 = q
    · have h1 : (if p.1 == q then (q, v) else p) = (q, v) := by simp [hq]
      have h2 : (((q, v) : String × StudentCourse).1 == q) = true := by simp
      rw [h1, find?_cons_pos (fun p : String × StudentCourse => p.1 == q) _ _ h2]
    · have h1 : (if p.1 == q then (q, v) else p) = p := by simp [hq]
      have h2 : (p.1 == q) = false := by simp [hq]
      simp only [List.any_cons, h2, Bool.false_or] at h
      rw [h1, find?_cons_neg (fun p : String × StudentCourse => p.1 == q) _ _ h2, ih h]

theorem mapLookup_mapSet (m : List (String × StudentCourse)) (q k : String)
    (v : StudentCourse) :
    mapLookup (mapSet m q v) k = if k = q then some v else mapLookup m k := by
  unfold mapSet mapLookup
  by_cases hany : m.any (fun p => p.1 == q) = true
  · rw [if_pos hany]
    by_cases hk : k = q
    · subst hk
      rw [find?_map_self k v m hany, if_pos rfl]
      rfl
    · rw [find?_map_ne k q v hk m, if_neg hk]
  · rw [if_neg hany, List.find?_append]
    by_cases hk : k = q
    · subst hk
      have hnone : m.find? (fun p => p.1 == k) = none := by
        rw [List.find?_eq_none]
        intro p hp hcontra
        exact hany (List.any_eq_true.mpr ⟨p, hp, hcontra⟩)
      have h2 : (((k, v) : String × StudentCourse).1 == k) = true := by simp
      rw [hnone, find?_cons_pos (fun p : String × StudentCourse => p.1 == k) _ _ h2, if_pos rfl]
      rfl
    · have h2 : (((q, v) : String × StudentCourse).1 == k) = false := by
        simp only [beq_eq_false_iff_ne, ne_eq]
        exact fun hqk => hk hqk.symm
      rw [find?_cons_neg (fun p : String × StudentCourse => p.1 == k) _ _ h2, if_neg hk]
      cases hf : m.find? (fun p => p.1 == k) <;> simp [Option.or]

theorem mapLookup_foldl (k : String) :
    ∀ (l : List StudentCourse) (m : List (String × StudentCourse)),
      mapLookup (l.foldl (fun m c => mapSet m c.course.id c) m) k =
        (l.reverse.find? (fun c => c.course.id == k)).or (mapLookup m k) := by
  intro l
  induction l with
  | nil => intro m; simp
  | cons c t ih =>
    intro m
    simp only [List.foldl_cons, ih, List.reverse_cons, List.find?_append]
    cases hf : t.reverse.find? (fun c => c.course.id == k) with
    | some u => simp [Option.or]
    | none =>
      simp only [Option.or, mapLookup_mapSet]
      by_cases hk : k = c.course.id
      · have h2 : (c.course.id == k) = true := by simp [hk]
        rw [find?_cons_pos (fun c : StudentCourse => c.course.id == k) _ _ h2, if_pos hk]
      · have h2 : (c.course.id == k) = false := by
          simp only [beq_eq_false_iff_ne, ne_eq]
          exact fun h => hk h.symm
        rw [find?_cons_neg (fun c : StudentCourse => c.course.id == k) _ _ h2, if_neg hk]
        simp

/-! ### Claims about the student plan positioning -/

theorem mkGhostPosition_eta (cfg : VisualConfig) (pw bw : Rat)
    (i semNumber : Nat) :
    mkGhostPosition cfg pw bw i semNumber = fun slot =>
      { courseId := "ghost-" ++ toString semNumber ++ "-" ++ toString slot
        x := (i : Rat) * pw + (pw - bw) / 2
        y := (slot : Rat) * cfg.spacingY + cfg.spacingY
        width := bw
        height := cfg.boxHeight
        isGhost := true } := rfl

/-- C1.  Ghost padding: for every student plan and every semester at plan
index `i` containing `k < BOXES_PER_COLUMN` courses,
`calculateStudentPositions` emits, right after the semester's real
positions, exactly `boxesPerColumn - k` ghost positions for that
semester, each with `isGhost = true` and synthetic id
`ghost-{semesterNumber}-{slotIndex}` for the slot indices
`k, k+1, …, boxesPerColumn - 1`. -/
theorem C1_ghost_padding (cfg : VisualConfig) (plan : StudentPlan) (pw : Rat)
    (i : Nat) (sem : StudentSemester)
    (hsem : plan.semesters[i]? = some sem)
    (hk : sem.courses.length < cfg.boxesPerColumn) :
    (calculateStudentPositions cfg plan pw).1 =
        positionsFrom cfg pw (max cfg.minWidth (pw * cfg.widthFactor)) 0
            (plan.semesters.take i)
          ++ realPositions cfg pw (max cfg.minWidth (pw * cfg.widthFactor)) i 0
              sem.courses
          ++ (List.range' sem.courses.length
                (cfg.boxesPerColumn - sem.courses.length)).map
              (fun slot =>
                { courseId :=
                    "ghost-" ++ toString sem.number ++ "-" ++ toString slot
                  x := (i : Rat) * pw +
                    (pw - max cfg.minWidth (pw * cfg.widthFactor)) / 2
                  y := (slot : Rat) * cfg.spacingY + cfg.spacingY
                  width := max cfg.minWidth (pw * cfg.widthFactor)
                  height := cfg.boxHeight
                  isGhost := true })
          ++ positionsFrom cfg pw (max cfg.minWidth (pw * cfg.widthFactor))
              (i + 1) (plan.semesters.drop (i + 1))
      ∧ (List.range' sem.courses.length
            (cfg.boxesPerColumn - sem.courses.length)).length =
          cfg.boxesPerColumn - sem.courses.length
      ∧ 0 < cfg.boxesPerColumn - sem.courses.length := by
  refine ⟨?_, by simp, by omega⟩
  have hdecomp := list_eq_take_cons_drop plan.semesters i sem hsem
  have hlen : i < plan.semesters.length := by
    by_contra hcon
    rw [List.getElem?_eq_none (by omega)] at hsem
    exact Option.noConfusion hsem
  have htake : (plan.semesters.take i).length = i :=
    List.length_take_of_le (by omega)
  have key : (calculateStudentPositions cfg plan pw).1 =
      positionsFrom cfg pw (max cfg.minWidth (pw * cfg.widthFactor)) 0
        (plan.semesters.take i ++ sem :: plan.semesters.drop (i + 1)) := by
    show positionsFrom cfg pw (max cfg.minWidth (pw * cfg.widthFactor)) 0
        plan.semesters = _
    rw [← hdecomp]
  rw [key, positionsFrom_append, htake, Nat.zero_add]
  simp only [positionsFrom, semesterBlock, ghostPositions, mkGhostPosition_eta,
    List.append_assoc]

/-- Configuration used by the concrete positioning examples:
capacity 4 boxes per column. -/
def cfgW : VisualConfig :=
  { minWidth := 30, widthFactor := 1/2, spacingY := 60, boxHeight := 50,
    boxesPerColumn := 4, totalSemesters := 8 }

/-- A concrete in-progress student course, `CourseX`. -/
def courseX : StudentCourse :=
  { course := { id := "CourseX", name := "X", credits := 4 },
    status := CourseStatus.inProgress }

/-- The single semester of the concrete plan below. -/
def semX : StudentSemester :=
  { number := 1, courses := [courseX], totalCredits := 4 }

/-- A concrete one-semester plan: semester 1 holds exactly `CourseX`. -/
def planW : StudentPlan := { semesters := [semX] }

/-- C1 witness: on `planW` with capacity 4 the positions are `CourseX`
followed by the three ghosts `ghost-1-1`, `ghost-1-2`, `ghost-1-3`. -/
theorem C1_ghost_padding_witness :
    (planW.semesters[0]? = some semX)
      ∧ (semX.courses.length < cfgW.boxesPerColumn)
      ∧ (calculateStudentPositions cfgW planW 100).1.map
            (fun p => (p.courseId, p.isGhost)) =
          [("CourseX", false), ("ghost-1-1", true), ("ghost-1-2", true),
            ("ghost-1-3", true)] := by
  refine ⟨by decide, by decide, ?_⟩
  have h := C1_ghost_padding cfgW planW 100 0 semX (by decide) (by decide)
  rw [h.1]
  decide

/-- C4.  Position-count invariant: for every student plan,
`calculateStudentPositions` returns exactly
`Σ over semesters of max(course count, boxesPerColumn)` positions, and
the non-ghost positions are exactly one per real course, in traversal
order (so no course is dropped and ghosts only fill the remainder). -/
theorem C4_position_count (cfg : VisualConfig) (plan : StudentPlan)
    (pw : Rat) :
    (calculateStudentPositions cfg plan pw).1.length =
        (plan.semesters.map
          (fun s => max s.courses.length cfg.boxesPerColumn)).sum
      ∧ (((calculateStudentPositions cfg plan pw).1.filter
            (fun p => !p.isGhost)).map (fun p => p.courseId) =
          (plan.semesters.flatMap (fun s => s.courses)).map
            (fun c => c.course.id)) := by
  exact ⟨positionsFrom_length cfg pw _ plan.semesters 0,
    positionsFrom_filter_map cfg pw _ plan.semesters 0⟩

/-- C5.  Position coordinates: the course at list index `j` of the
semester at plan index `i` is placed at
`x = i * phaseWidth + (phaseWidth - boxWidth) / 2` and
`y = j * spacingY + spacingY`, with
`boxWidth = max(minWidth, phaseWidth * widthFactor)`, at the position
slot following all blocks of the previous semesters. -/
theorem C5_position_coordinates (cfg : VisualConfig) (plan : StudentPlan)
    (pw : Rat) (i j : Nat) (sem : StudentSemester) (c : StudentCourse)
    (hsem : plan.semesters[i]? = some sem)
    (hc : sem.courses[j]? = some c) :
    (calculateStudentPositions cfg plan pw).1[
        ((plan.semesters.take i).map
          (fun s => max s.courses.length cfg.boxesPerColumn)).sum + j]? =
      some { courseId := c.course.id
             x := (i : Rat) * pw +
               (pw - max cfg.minWidth (pw * cfg.widthFactor)) / 2
             y := (j : Rat) * cfg.spacingY + cfg.spacingY
             width := max cfg.minWidth (pw * cfg.widthFactor)
             height := cfg.boxHeight
             isGhost := false } := by
  have hdecomp := list_eq_take_cons_drop plan.semesters i sem hsem
  have hlen : i < plan.semesters.length := by
    by_contra hcon
    rw [List.getElem?_eq_none (by omega)] at hsem
    exact Option.noConfusion hsem
  have htake : (plan.semesters.take i).length = i :=
    List.length_take_of_le (by omega)
  have hj : j < sem.courses.length := by
    by_contra hcon
    rw [List.getElem?_eq_none (by omega)] at hc
    exact Option.noConfusion hc
  have key : (calculateStudentPositions cfg plan pw).1 =
      positionsFrom cfg pw (max cfg.minWidth (pw * cfg.widthFactor)) 0
        (plan.semesters.take i ++ sem :: plan.semesters.drop (i + 1)) := by
    show positionsFrom cfg pw (max cfg.minWidth (pw * cfg.widthFactor)) 0
        plan.semesters = _
    rw [← hdecomp]
  rw [key, positionsFrom_append, htake, Nat.zero_add]
  rw [List.getElem?_append_right (by
    rw [positionsFrom_length]
    omega)]
  rw [positionsFrom_length]
  have hoff :
      ((plan.semesters.take i).map
          (fun s => max s.courses.length cfg.boxesPerColumn)).sum + j -
        ((plan.semesters.take i).map
          (fun s => max s.courses.length cfg.boxesPerColumn)).sum = j := by
    omega
  rw [hoff]
  show (semesterBlock cfg pw (max cfg.minWidth (pw * cfg.widthFactor)) i sem ++
      positionsFrom cfg pw (max cfg.minWidth (pw * cfg.widthFactor)) (i + 1)
        (plan.semesters.drop (i + 1)))[j]? = _
  have h1 : j < (semesterBlock cfg pw (max cfg.minWidth (pw * cfg.widthFactor))
      i sem).length := by
    rw [semesterBlock_length]
    omega
  rw [List.getElem?_append, if_pos h1]
  unfold semesterBlock
  have h2 : j < (realPositions cfg pw (max cfg.minWidth (pw * cfg.widthFactor))
      i 0 sem.courses).length := by
    rw [realPositions_length]
    omega
  rw [List.getElem?_append, if_pos h2]
  have h3 := realPositions_getElem cfg pw
    (max cfg.minWidth (pw * cfg.widthFactor)) i sem.courses 0 j c hc
  rw [h3, Nat.zero_add]
  rfl

/-- C5 witness: in `planW`, `CourseX` (semester index 0, course index 0)
sits at `x = (100 - 50) / 2 = 25` and `y = 60` for phase width 100. -/
theorem C5_position_coordinates_witness :
    (planW.semesters[0]? = some semX)
      ∧ (semX.courses[0]? = some courseX)
      ∧ (calculateStudentPositions cfgW planW 100).1[0]? =
          some { courseId := "CourseX", x := 25, y := 60, width := 50,
                 height := 50, isGhost := false } := by
  refine ⟨by decide, by decide, ?_⟩
  have h := C5_position_coordinates cfgW planW 100 0 0 semX courseX
    (by decide) (by decide)
  refine h.trans ?_
  simp only [cfgW, courseX]
  norm_num [max_def]

/-- C9.  Course map contents: the map returned by
`calculateStudentPositions` sends a key `k` to the last course of the
flattened plan whose course identifier is `k` (so it holds exactly the
real, non-ghost courses keyed by course identifier, later duplicates
overwriting earlier ones), and no other key. -/
theorem C9_course_map (cfg : VisualConfig) (plan : StudentPlan) (pw : Rat)
    (k : String) :
    mapLookup (calculateStudentPositions cfg plan pw).2 k =
      (plan.semesters.flatMap (fun s => s.courses)).reverse.find?
        (fun c => c.course.id == k) := by
  show mapLookup
      ((plan.semesters.flatMap (fun s => s.courses)).foldl
        (fun m c => mapSet m c.course.id c) []) k = _
  rw [mapLookup_foldl]
  cases hf : (plan.semesters.flatMap (fun s => s.courses)).reverse.find?
      (fun c => c.course.id == k) <;>
    simp [Option.or, mapLookup]

/-! ## Student record parsing (`parseStudentData`) -/

/-- One raw course entry `[courseCode, classCode, grade]` of the student
record.  The grade string is modelled already parsed: `none` stands for a
missing or empty grade string (falsy in the source), `some g` for a
string that `parseFloat` reads as `g`. -/
structure RawCourseEntry where
  courseCode : String
  classCode : String
  grade : Option Rat := none
  deriving DecidableEq, Repr

/-- The raw student record (`RawStudentData`): `coursed` and `plan` are
arrays of per-semester entry lists. -/
structure RawStudentData where
  id : String
  studentId : String
  name : String
  currentSemester : Nat
  coursed : List (List RawCourseEntry)
  plan : List (List RawCourseEntry)
  deriving DecidableEq, Repr

/-- JavaScript sparse-array index assignment `l[i] = x` on an array
modelled as a list of `Option`: set in place when `i` is in bounds,
otherwise extend with `undefined` holes up to `i`. -/
def setSparse {α : Type} (l : List (Option α)) (i : Nat) (x : α) :
    List (Option α) :=
  if i < l.length then l.set i (some x)
  else l ++ List.replicate (i - l.length) none ++ [some x]

/-- The body of the `coursed` entry loop (`student-parser.ts`,
lines 99-115): resolve the course code through the curriculum lookup
(skipping unknown codes), grade `>= 6` means completed, failed
otherwise; a falsy grade string counts as grade 0. -/
def parseCoursedEntry (lookup : String → Option Course)
    (e : RawCourseEntry) : Option StudentCourse :=
  match lookup e.courseCode with
  | none => none
  | some courseInfo =>
    some { course := courseInfo
           status := if 6 ≤ e.grade.getD 0 then CourseStatus.completed
             else CourseStatus.failed
           grade := some (e.grade.getD 0)
           «class» := if e.classCode = "" then none else some e.classCode }

/-- Credit total `courses.reduce((sum, course) => sum + course.credits, 0)`. -/
def creditsOf (cs : List StudentCourse) : Nat :=
  (cs.map (fun c => c.course.credits)).sum

/-- The `jsonData.coursed.forEach` loop (`student-parser.ts`,
lines 95-125): each semester row with at least one resolvable course is
assigned at index `semesterNumber - 1`, rows with no resolvable course
leave the array untouched. -/
def coursedSemesters (lookup : String → Option Course) :
    Nat → List (List RawCourseEntry) → List (Option StudentSemester) →
      List (Option StudentSemester)
  | _, [], sems => sems
  | si, row :: rest, sems =>
    let courses := row.filterMap (parseCoursedEntry lookup)
    coursedSemesters lookup (si + 1) rest
      (if 0 < courses.length then
        setSparse sems si
          { number := si + 1, courses := courses,
            totalCredits := creditsOf courses }
      else sems)

/-- One pass of the gap-filling loop at index `i`: a present semester is
kept, a hole or out-of-bounds read (`!semesters[i]`) is assigned an empty
semester. -/
def fillGapStep (sems : List (Option StudentSemester)) (i : Nat) :
    List (Option StudentSemester) :=
  match sems[i]? with
  | some (some _) => sems
  | _ => setSparse sems i { number := i + 1, courses := [], totalCredits := 0 }

/-- The gap-filling loop (`student-parser.ts`, lines 129-137), iterating
`n` indices starting at `i`. -/
def fillGapsAux : Nat → Nat → List (Option StudentSemester) →
    List (Option StudentSemester)
  | _, 0, sems => sems
  | i, n + 1, sems => fillGapsAux (i + 1) n (fillGapStep sems i)

/-- The `for (let i = 0; i < PHASE.TOTAL_SEMESTERS; i++)` gap fill. -/
def fillGaps (total : Nat) (sems : List (Option StudentSemester)) :
    List (Option StudentSemester) :=
  fillGapsAux 0 total sems

/-- The planned-course entry parser (`student-parser.ts`, lines 152-168):
the grade column of plan rows is ignored. -/
def parsePlanEntry (lookup : String → Option Course) (status : CourseStatus)
    (e : RawCourseEntry) : Option StudentCourse :=
  match lookup e.courseCode with
  | none => none
  | some courseInfo =>
    some { course := courseInfo
           status := status
           grade := none
           «class» := if e.classCode = "" then none else some e.classCode }

/-- The `jsonData.plan.forEach` loop (`student-parser.ts`,
lines 143-175): each plan row lands at semester
`currentSemester + planIndex`; rows beyond `total` are skipped
(the `forEach` continues); the target semester's course list is extended
and its credit total recomputed.  In the source a hole at the target
index would throw; with `currentSemester ≥ 1` that index is always
gap-filled, and the model leaves the array unchanged there. -/
def planSemesters (lookup : String → Option Course) (total current : Nat) :
    Nat → List (List RawCourseEntry) → List (Option StudentSemester) →
      List (Option StudentSemester)
  | _, [], sems => sems
  | pi, row :: rest, sems =>
    let semesterNumber := current + pi
    if total < semesterNumber then
      planSemesters lookup total current (pi + 1) rest sems
    else
      let status := if semesterNumber = current then CourseStatus.inProgress
        else CourseStatus.planned
      let newCourses := row.filterMap (parsePlanEntry lookup status)
      match sems[semesterNumber - 1]? with
      | some (some t) =>
        planSemesters lookup total current (pi + 1) rest
          (sems.set (semesterNumber - 1)
            (some { number := t.number
                    courses := t.courses ++ newCourses
                    totalCredits := creditsOf (t.courses ++ newCourses) }))
      | _ => planSemesters lookup total current (pi + 1) rest sems

/-- `parseStudentData` (`student-parser.ts`, lines 89-197), restricted to
the `semesters` array of the produced plan — the remaining `StudentInfo`
fields are verbatim copies of the input.  `lookup` models `getCourseInfo`
from the curriculum parser (the courseId → Course lookup); `total` models
the constant `PHASE.TOTAL_SEMESTERS`. -/
def parseStudentData (lookup : String → Option Course) (total : Nat)
    (d : RawStudentData) : List (Option StudentSemester) :=
  planSemesters lookup total d.currentSemester 0 d.plan
    (fillGaps total (coursedSemesters lookup 0 d.coursed []))

/-! ### Lemmas about the sparse-array model -/

theorem setSparse_length {α : Type} (l : List (Option α)) (i : Nat) (x : α) :
    (setSparse l i x).length = max l.length (i + 1) := by
  unfold setSparse
  split
  · rw [List.length_set]
    omega
  · simp only [List.length_append, List.length_replicate, List.length_cons,
      List.length_nil]
    omega

theorem setSparse_getElem_self {α : Type} (l : List (Option α)) (i : Nat)
    (x : α) : (setSparse l i x)[i]? = some (some x) := by
  unfold setSparse
  split
  · exact List.getElem?_set_eq_of_lt (some x) (by assumption)
  · rw [List.append_assoc, List.getElem?_append_right (by omega : l.length ≤ i),
      List.getElem?_append_right (by simp)]
    simp only [List.length_replicate]
    rw [show i - l.length - (i - l.length) = 0 from by omega]
    rfl

theorem setSparse_getElem_other {α : Type} (l : List (Option α)) (i : Nat)
    (x : α) (j : Nat) (hji : j ≠ i) (hj : j < l.length) :
    (setSparse l i x)[j]? = l[j]? := by
  unfold setSparse
  split
  · exact List.getElem?_set_ne (fun h => hji h.symm)
  · rw [List.append_assoc, List.getElem?_append, if_pos hj]

/-! ### Lemmas about the coursed pass, the gap fill and the plan pass -/

theorem coursedSemesters_length (lookup : String → Option Course) :
    ∀ (rows : List (List RawCourseEntry)) (si : Nat)
      (sems : List (Option StudentSemester)),
      (coursedSemesters lookup si rows sems).length ≤
        max sems.length (si + rows.length) := by
  intro rows
  induction rows with
  | nil =>
    intro si sems
    simp only [coursedSemesters]
    omega
  | cons row rest ih =>
    intro si sems
    simp only [coursedSemesters]
    split
    · have h := ih (si + 1) (setSparse sems si
        { number := si + 1,
          courses := row.filterMap (parseCoursedEntry lookup),
          totalCredits := creditsOf (row.filterMap (parseCoursedEntry lookup)) })
      rw [setSparse_length] at h
      simp only [List.length_cons]
      omega
    · have h := ih (si + 1) sems
      simp only [List.length_cons]
      omega

theorem fillGapStep_length (sems : List (Option StudentSemester)) (i : Nat)
    (h : i ≤ sems.length) :
    (fillGapStep sems i).length = max sems.length (i + 1) := by
  unfold fillGapStep
  split
  · next heq =>
    have : i < sems.length := by
      by_contra hcon
      rw [List.getElem?_eq_none (by omega)] at heq
      exact Option.noConfusion heq
    omega
  · rw [setSparse_length]

theorem fillGapStep_self (sems : List (Option StudentSemester)) (i : Nat) :
    ∃ e, (fillGapStep sems i)[i]? = some (some e) := by
  unfold fillGapStep
  split
  · next x heq => exact ⟨x, heq⟩
  · exact ⟨_, setSparse_getElem_self sems i _⟩

theorem fillGapStep_other (sems : List (Option StudentSemester)) (i j : Nat)
    (e : StudentSemester) (hji : j ≠ i) (h : sems[j]? = some (some e)) :
    (fillGapStep sems i)[j]? = some (some e) := by
  have hj : j < sems.length := by
    by_contra hcon
    rw [List.getElem?_eq_none (by omega)] at h
    exact Option.noConfusion h
  unfold fillGapStep
  split
  · exact h
  · rw [setSparse_getElem_other sems i _ j hji hj]
    exact h

theorem fillGapsAux_preserve :
    ∀ (n i : Nat) (sems : List (Option StudentSemester)) (j : Nat)
      (e : StudentSemester), j < i → sems[j]? = some (some e) →
      (fillGapsAux i n sems)[j]? = some (some e) := by
  intro n
  induction n with
  | zero => intro i sems j e _ h; exact h
  | succ m ih =>
    intro i sems j e hji h
    simp only [fillGapsAux]
    exact ih (i + 1) _ j e (by omega)
      (fillGapStep_other sems i j e (by omega) h)

theorem fillGapsAux_length :
    ∀ (n i : Nat) (sems : List (Option StudentSemester)),
      i ≤ sems.length → (fillGapsAux i n sems).length = max sems.length (i + n) := by
  intro n
  induction n with
  | zero =>
    intro i sems h
    simp only [fillGapsAux]
    omega
  | succ m ih =>
    intro i sems h
    simp only [fillGapsAux]
    rw [ih (i + 1) _ (by
      rw [fillGapStep_length sems i h]
      omega)]
    rw [fillGapStep_length sems i h]
    omega

theorem fillGapsAux_sound :
    ∀ (n i : Nat) (sems : List (Option StudentSemester)),
      i ≤ sems.length → ∀ j, i ≤ j → j < i + n →
      ∃ e, (fillGapsAux i n sems)[j]? = some (some e) := by
  intro n
  induction n with
  | zero => intro i sems _ j h1 h2; omega
  | succ m ih =>
    intro i sems h j h1 h2
    simp only [fillGapsAux]
    by_cases hji : j = i
    · subst hji
      obtain ⟨e, he⟩ := fillGapStep_self sems j
      exact ⟨e, fillGapsAux_preserve m (j + 1) _ j e (by omega) he⟩
    · exact ih (i + 1) _ (by
        rw [fillGapStep_length sems i h]
        omega) j (by omega) (by omega)

theorem planSemesters_length (lookup : String → Option Course)
    (total current : Nat) :
    ∀ (rows : List (List RawCourseEntry)) (pi : Nat)
      (sems : List (Option StudentSemester)),
      (planSemesters lookup total current pi rows sems).length =
        sems.length := by
  intro rows
  induction rows with
  | nil => intro pi sems; rfl
  | cons row rest ih =>
    intro pi sems
    simp only [planSemesters]
    split
    · exact ih (pi + 1) sems
    · split
      · rw [ih (pi + 1) _, List.length_set]
      · exact ih (pi + 1) sems

theorem planSemesters_isSome (lookup : String → Option Course)
    (total current : Nat) :
    ∀ (rows : List (List RawCourseEntry)) (pi : Nat)
      (sems : List (Option StudentSemester)),
      (∀ (j : Nat) (o : Option StudentSemester), sems[j]? = some o →
        o.isSome = true) →
      ∀ (j : Nat) (o : Option StudentSemester),
        (planSemesters lookup total current pi rows sems)[j]? = some o →
          o.isSome = true := by
  intro rows
  induction rows with
  | nil => intro pi sems h; exact h
  | cons row rest ih =>
    intro pi sems h
    simp only [planSemesters]
    split
    · exact ih (pi + 1) sems h
    · split
      · refine ih (pi + 1) _ ?_
        intro j o hj
        by_cases hidx : j = current + pi - 1
        · subst hidx
          by_cases hin : current + pi - 1 < sems.length
          · rw [List.getElem?_set_eq_of_lt _ hin] at hj
            cases hj
            rfl
          · rw [List.set_eq_of_length_le (by omega)] at hj
            exact h _ o hj
        · rw [List.getElem?_set_ne (fun hc => hidx hc.symm)] at hj
          exact h _ o hj
      · exact ih (pi + 1) sems h

/-! ### Claims about `parseStudentData` -/

/-- The curriculum lookup used by the concrete parsing examples: only
the code `EX1` resolves. -/
def lookupEx : String → Option Course := fun c =>
  if c = "EX1" then some { id := "EX1", name := "Example", credits := 4 }
  else none

/-- A raw record whose `coursed` array has two rows — one more than the
configured 1 total semester — the second row holding a resolvable
course. -/
def rawOverflow : RawStudentData :=
  { id := "1", studentId := "1", name := "S", currentSemester := 1,
    coursed := [[],
      [{ courseCode := "EX1", classCode := "T1", grade := some 8 }]],
    plan := [] }

/-- C8 counterexample: with `TOTAL_SEMESTERS = 1`, the record
`rawOverflow` — whose `coursed` array has a resolvable course in row 2 —
produces 2 semester entries, not 1: the coursed pass, unlike the plan
pass, has no bound check, so it extends the array past the configured
total. -/
theorem C8_fixed_semesters_counterexample :
    (parseStudentData lookupEx 1 rawOverflow).length ≠ 1 := by
  decide

/-- C8 (amended).  Fixed semester count: provided `currentSemester ≥ 1`
and the `coursed` array has at most `TOTAL_SEMESTERS` rows, the semester
array produced by `parseStudentData` has exactly `total` entries and
every entry is a present semester (unpopulated ones are empty lists, not
holes); plan rows beyond `total` are skipped rather than extending the
array.  (Without the bound on `coursed` the count can exceed `total`,
see the counterexample.) -/
theorem C8_fixed_semesters (lookup : String → Option Course) (total : Nat)
    (d : RawStudentData) (hcur : 1 ≤ d.currentSemester)
    (hlen : d.coursed.length ≤ total) :
    (parseStudentData lookup total d).length = total
      ∧ ∀ o ∈ parseStudentData lookup total d, o.isSome = true := by
  have h1 : (coursedSemesters lookup 0 d.coursed []).length ≤ total := by
    have := coursedSemesters_length lookup d.coursed 0 []
    simp only [List.length_nil, Nat.zero_add] at this
    omega
  have h2 : (fillGaps total (coursedSemesters lookup 0 d.coursed [])).length =
      total := by
    unfold fillGaps
    rw [fillGapsAux_length total 0 _ (by omega)]
    omega
  have h3 : ∀ (j : Nat) (o : Option StudentSemester),
      (fillGaps total (coursedSemesters lookup 0 d.coursed []))[j]? = some o →
        o.isSome = true := by
    intro j o hj
    have hjlen : j < total := by
      by_contra hcon
      rw [List.getElem?_eq_none (by omega)] at hj
      exact Option.noConfusion hj
    obtain ⟨e, he⟩ := fillGapsAux_sound total 0 _ (by omega) j (by omega)
      (by omega)
    rw [show (fillGaps total (coursedSemesters lookup 0 d.coursed []))[j]? =
      (fillGapsAux 0 total (coursedSemesters lookup 0 d.coursed []))[j]?
      from rfl] at hj
    rw [he] at hj
    cases hj
    rfl
  constructor
  · show (planSemesters lookup total d.currentSemester 0 d.plan _).length = _
    rw [planSemesters_length, h2]
  · intro o ho
    obtain ⟨j, hj⟩ := List.getElem?_of_mem ho
    exact planSemesters_isSome lookup total d.currentSemester d.plan 0 _ h3
      j o hj

/-- A well-formed raw record: one coursed semester (a failed course,
grade 3), current semester 2, plan rows for semesters 2, 3 and 4 of
which the last is beyond the 3 configured semesters. -/
def rawRegular : RawStudentData :=
  { id := "1", studentId := "1", name := "S", currentSemester := 2,
    coursed := [[{ courseCode := "EX1", classCode := "", grade := some 3 }]],
    plan := [[{ courseCode := "EX1", classCode := "A", grade := none }],
      [{ courseCode := "EX1", classCode := "B", grade := none }],
      [{ courseCode := "EX1", classCode := "C", grade := none }]] }

/-- C8 witness: `rawRegular` satisfies the amended hypotheses for
`TOTAL_SEMESTERS = 3` and parses to exactly 3 present semesters. -/
theorem C8_fixed_semesters_witness :
    1 ≤ rawRegular.currentSemester ∧ rawRegular.coursed.length ≤ 3 ∧
      ((parseStudentData lookupEx 3 rawRegular).length = 3
        ∧ ∀ o ∈ parseStudentData lookupEx 3 rawRegular, o.isSome = true) :=
  ⟨by decide, by decide,
    C8_fixed_semesters lookupEx 3 rawRegular (by decide) (by decide)⟩

/-- C10.  Grade classification in the coursed pass of `parseStudentData`:
for an entry whose course code resolves, the produced status is
`completed` exactly when the parsed grade (0 for a missing or empty
grade string) is at least 6, and `failed` otherwise; in particular a
missing grade yields `failed`. -/
theorem C10_grade_classification (lookup : String → Option Course)
    (e : RawCourseEntry) (courseInfo : Course)
    (h : lookup e.courseCode = some courseInfo) :
    ∃ sc, parseCoursedEntry lookup e = some sc
      ∧ (sc.status = CourseStatus.completed ↔ 6 ≤ e.grade.getD 0)
      ∧ (sc.status = CourseStatus.failed ↔ ¬ 6 ≤ e.grade.getD 0)
      ∧ (e.grade = none → sc.status = CourseStatus.failed) := by
  refine ⟨_, by rw [parseCoursedEntry, h], ?_, ?_, ?_⟩
  · constructor
    · intro hs
      by_contra hcon
      simp only [if_neg hcon] at hs
      exact CourseStatus.noConfusion hs
    · intro hs
      simp only [if_pos hs]
  · constructor
    · intro hs hcon
      simp only [if_pos hcon] at hs
      exact CourseStatus.noConfusion hs
    · intro hs
      simp only [if_neg hs]
  · intro hnone
    have : ¬ (6 : Rat) ≤ e.grade.getD 0 := by
      rw [hnone]
      norm_num
    simp only [if_neg this]

/-- C10 witness: a resolvable entry with no grade string parses to a
failed course. -/
theorem C10_grade_classification_witness :
    lookupEx "EX1" = some { id := "EX1", name := "Example", credits := 4 }
      ∧ ∃ sc, parseCoursedEntry lookupEx
          { courseCode := "EX1", classCode := "", grade := none } = some sc
        ∧ (sc.status = CourseStatus.completed ↔
            (6 : Rat) ≤ (Option.getD none 0 : Rat))
        ∧ (sc.status = CourseStatus.failed ↔
            ¬ (6 : Rat) ≤ (Option.getD none 0 : Rat))
        ∧ ((none : Option Rat) = none → sc.status = CourseStatus.failed) :=
  ⟨by decide, C10_grade_classification lookupEx
    { courseCode := "EX1", classCode := "", grade := none }
    { id := "EX1", name := "Example", credits := 4 } (by decide)⟩

/-! ## Timetable slot assignment (the `courseSchedule` memo of the
timetable component) -/

/-- Modelled from the spec: one entry of `TIMETABLE.TIME_SLOTS` from
`@/config/visualization` (not among the sources): a slot identifier (the
start-time string) and a display label. -/
structure TimeSlot where
  id : String
  label : String
  deriving DecidableEq, Repr

/-- A raw schedule entry `{day, startTime}`. -/
structure ScheduleEntry where
  day : Nat
  startTime : String
  deriving DecidableEq, Repr

/-- A professor override: course, professor, and the full replacement
schedule. -/
structure ProfessorOverride where
  courseId : String
  professorId : String
  schedule : List ScheduleEntry
  deriving DecidableEq, Repr

/-- The timetable grid `schedule[slotId][dayIndex]`, modelled as a total
function; absent cells are `none`. -/
def Grid : Type := String → Nat → Option StudentCourse

/-- The freshly initialised grid: every cell empty. -/
def emptyGrid : Grid := fun _ _ => none

/-- Writing one cell `schedule[slotId][day] = course`. -/
def writeCell (g : Grid) (slotId : String) (day : Nat)
    (c : StudentCourse) : Grid :=
  fun s d => if s = slotId ∧ d = day then some c else g s d

/-- Processing one schedule entry for course `c` (timetable component,
lines 127-141 and 150-164): locate the start slot in the ordered slot
list; on a miss write nothing; on a hit write the course into the start
slot's cell and, when it exists, into the immediately following slot's
cell for the same day. -/
def applyEntry (slots : List TimeSlot) (c : StudentCourse) (g : Grid)
    (e : ScheduleEntry) : Grid :=
  match slots.findIdx? (fun sl => sl.id == e.startTime) with
  | none => g
  | some i =>
    let g1 := writeCell g e.startTime e.day c
    if h : i + 1 < slots.length then
      writeCell g1 (slots.get ⟨i + 1, h⟩).id e.day c
    else g1

/-- The cells a schedule entry occupies: the start slot and, unless the
start slot is the last one, the immediately following slot; none when
the start time matches no slot. -/
def entryCells (slots : List TimeSlot) (e : ScheduleEntry) :
    List (String × Nat) :=
  match slots.findIdx? (fun sl => sl.id == e.startTime) with
  | none => []
  | some i =>
    if h : i + 1 < slots.length then
      [(e.startTime, e.day), ((slots.get ⟨i + 1, h⟩).id, e.day)]
    else [(e.startTime, e.day)]

/-- A single grid write: cell coordinates and the course written. -/
def Write : Type := String × Nat × StudentCourse

/-- Replaying a list of writes onto a grid, in order. -/
def applyWrites (ws : List Write) (g : Grid) : Grid :=
  ws.foldl (fun g w => writeCell g w.1 w.2.1 w.2.2) g

/-- The writes performed for one schedule entry of course `c`. -/
def entryWrites (slots : List TimeSlot) (c : StudentCourse)
    (e : ScheduleEntry) : List Write :=
  (entryCells slots e).map (fun cell => (cell.1, cell.2, c))

/-- The writes the default pass performs for course `c`: nothing when the
course has an override or no (array) entry in the schedule data,
otherwise the expansion of each of its default entries in order. -/
def defaultWrites (slots : List TimeSlot)
    (data : String → Option (List ScheduleEntry))
    (overriddenIds : List String) (c : StudentCourse) : List Write :=
  if overriddenIds.contains c.course.id then []
  else
    match data c.course.id with
    | none => []
    | some times => times.flatMap (entryWrites slots c)

/-- The writes the override pass performs for override `ov`: nothing when
no in-progress course matches the override's course id, otherwise the
expansion of each override entry for the first matching course. -/
def overrideWrites (slots : List TimeSlot) (courses : List StudentCourse)
    (ov : ProfessorOverride) : List Write :=
  match courses.find? (fun c => c.course.id == ov.courseId) with
  | none => []
  | some c => ov.schedule.flatMap (entryWrites slots c)

/-- All writes of the grid construction in processing order: the default
pass over the courses, then the override pass. -/
def allWrites (slots : List TimeSlot)
    (data : String → Option (List ScheduleEntry))
    (courses : List StudentCourse) (overrides : List ProfessorOverride) :
    List Write :=
  courses.flatMap (defaultWrites slots data (overrides.map (fun o => o.courseId)))
    ++ overrides.flatMap (overrideWrites slots courses)

/-- The `courseSchedule` memo of the timetable component (lines 95-168):
start from the empty grid, apply the default schedule of every course
without an override, then apply every override's schedule entries.
`data` models the `schedule.json` lookup (`none` stands for a missing or
non-array value), `slots` models `TIMETABLE.TIME_SLOTS`. -/
def courseSchedule (slots : List TimeSlot)
    (data : String → Option (List ScheduleEntry))
    (courses : List StudentCourse) (overrides : List ProfessorOverride) :
    Grid :=
  let overriddenIds := overrides.map (fun o => o.courseId)
  let afterDefaults := courses.foldl (fun g c =>
    if overriddenIds.contains c.course.id then g
    else
      match data c.course.id with
      | none => g
      | some times => times.foldl (applyEntry slots c) g) emptyGrid
  overrides.foldl (fun g ov =>
    match courses.find? (fun c => c.course.id == ov.courseId) with
    | none => g
    | some c => ov.schedule.foldl (applyEntry slots c) g) afterDefaults

/-- The in-progress filter feeding `courseSchedule` (timetable component,
lines 37-44). -/
def currentCourses (plan : StudentPlan) : List StudentCourse :=
  (plan.semesters.flatMap (fun s => s.courses)).filter
    (fun c => c.status == CourseStatus.inProgress)

/-! ### The grid construction as a replayed list of writes -/

theorem applyWrites_append (a b : List Write) (g : Grid) :
    applyWrites (a ++ b) g = applyWrites b (applyWrites a g) := by
  unfold applyWrites
  rw [List.foldl_append]

theorem applyEntry_eq_writes (slots : List TimeSlot) (c : StudentCourse)
    (g : Grid) (e : ScheduleEntry) :
    applyEntry slots c g e = applyWrites (entryWrites slots c e) g := by
  unfold applyEntry entryWrites entryCells
  cases h : slots.findIdx? (fun sl => sl.id == e.startTime) with
  | none => rfl
  | some i =>
    by_cases h2 : i + 1 < slots.length
    · simp only [dif_pos h2]
      rfl
    · simp only [dif_neg h2]
      rfl

theorem foldl_applyEntry (slots : List TimeSlot) (c : StudentCourse) :
    ∀ (times : List ScheduleEntry) (g : Grid),
      times.foldl (applyEntry slots c) g =
        applyWrites (times.flatMap (entryWrites slots c)) g := by
  intro times
  induction times with
  | nil => intro g; rfl
  | cons e rest ih =>
    intro g
    simp only [List.foldl_cons, List.flatMap_cons, applyWrites_append, ih,
      applyEntry_eq_writes]

theorem defaults_foldl (slots : List TimeSlot)
    (data : String → Option (List ScheduleEntry))
    (overriddenIds : List String) :
    ∀ (courses : List StudentCourse) (g : Grid),
      courses.foldl (fun g c =>
          if overriddenIds.contains c.course.id then g
          else
            match data c.course.id with
            | none => g
            | some times => times.foldl (applyEntry slots c) g) g =
        applyWrites (courses.flatMap (defaultWrites slots data overriddenIds))
          g := by
  intro courses
  induction courses with
  | nil => intro g; rfl
  | cons c rest ih =>
    intro g
    have hstep : (if overriddenIds.contains c.course.id then g
        else
          match data c.course.id with
          | none => g
          | some times => times.foldl (applyEntry slots c) g) =
        applyWrites (defaultWrites slots data overriddenIds c) g := by
      unfold defaultWrites
      by_cases hov : overriddenIds.contains c.course.id
      · simp only [if_pos hov]
        rfl
      · simp only [if_neg hov]
        cases hd : data c.course.id with
        | none => rfl
        | some times => exact foldl_applyEntry slots c times g
    simp only [List.foldl_cons, List.flatMap_cons, applyWrites_append, hstep, ih]

theorem overrides_foldl (slots : List TimeSlot)
    (courses : List StudentCourse) :
    ∀ (overrides : List ProfessorOverride) (g : Grid),
      overrides.foldl (fun g ov =>
          match courses.find? (fun c => c.course.id == ov.courseId) with
          | none => g
          | some c => ov.schedule.foldl (applyEntry slots c) g) g =
        applyWrites (overrides.flatMap (overrideWrites slots courses)) g := by
  intro overrides
  induction overrides with
  | nil => intro g; rfl
  | cons ov rest ih =>
    intro g
    have hstep : (match courses.find? (fun c => c.course.id == ov.courseId) with
        | none => g
        | some c => ov.schedule.foldl (applyEntry slots c) g) =
        applyWrites (overrideWrites slots courses ov) g := by
      unfold overrideWrites
      cases hf : courses.find? (fun c => c.course.id == ov.courseId) with
      | none => rfl
      | some c => exact foldl_applyEntry slots c ov.schedule g
    simp only [List.foldl_cons, List.flatMap_cons, applyWrites_append, hstep, ih]

theorem courseSchedule_eq_writes (slots : List TimeSlot)
    (data : String → Option (List ScheduleEntry))
    (courses : List StudentCourse) (overrides : List ProfessorOverride) :
    courseSchedule slots data courses overrides =
      applyWrites (allWrites slots data courses overrides) emptyGrid := by
  have hrfl : courseSchedule slots data courses overrides =
      overrides.foldl (fun g ov =>
        match courses.find? (fun c => c.course.id == ov.courseId) with
        | none => g
        | some c => ov.schedule.foldl (applyEntry slots c) g)
        (courses.foldl (fun g c =>
          if (overrides.map (fun o => o.courseId)).contains c.course.id then g
          else
            match data c.course.id with
            | none => g
            | some times => times.foldl (applyEntry slots c) g) emptyGrid) :=
    rfl
  rw [hrfl, overrides_foldl, defaults_foldl]
  unfold allWrites
  rw [applyWrites_append]

theorem applyWrites_lookup :
    ∀ (ws : List Write) (g : Grid) (s : String) (d : Nat),
      applyWrites ws g s d =
        (match ws.reverse.find? (fun w => w.1 == s && w.2.1 == d) with
          | some w => some w.2.2
          | none => g s d) := by
  intro ws
  induction ws with
  | nil => intro g s d; rfl
  | cons w t ih =>
    intro g s d
    rw [show applyWrites (w :: t) g =
      applyWrites t (writeCell g w.1 w.2.1 w.2.2) from rfl]
    rw [ih, List.reverse_cons, List.find?_append]
    cases hf : t.reverse.find? (fun w => w.1 == s && w.2.1 == d) with
    | some u => simp [Option.or]
    | none =>
      simp only [Option.or]
      by_cases hw : w.1 = s ∧ w.2.1 = d
      · have hp : ((fun w : Write => w.1 == s && w.2.1 == d) w) = true := by
          simp [hw.1, hw.2]
        rw [find?_cons_pos (fun w : Write => w.1 == s && w.2.1 == d) _ _ hp]
        show writeCell g w.1 w.2.1 w.2.2 s d = some w.2.2
        unfold writeCell
        rw [if_pos ⟨hw.1.symm, hw.2.symm⟩]
      · have hp : ((fun w : Write => w.1 == s && w.2.1 == d) w) = false := by
          rw [Bool.and_eq_false_iff]
          by_cases h1 : w.1 = s
          · right
            have h2 : ¬ w.2.1 = d := fun hc => hw ⟨h1, hc⟩
            simp [h2]
          · left
            simp [h1]
        rw [find?_cons_neg (fun w : Write => w.1 == s && w.2.1 == d) _ _ hp]
        show writeCell g w.1 w.2.1 w.2.2 s d = g s d
        unfold writeCell
        rw [if_neg (fun hc => hw ⟨hc.1.symm, hc.2.symm⟩)]

/-! ### Claims about the timetable grid -/

/-- C7.  Overlap last-write-wins: every grid cell of `courseSchedule`
holds exactly the course of the last write (in processing order: all
default-pass writes, then all override-pass writes) whose cell matches,
and is empty when no write matches — so when two courses' entries claim
the same cell the later-processed course wins, no conflict is reported,
and any matching override-pass write beats every default-pass write,
since the search scans the reversed override writes first. -/
theorem C7_last_write_wins (slots : List TimeSlot)
    (data : String → Option (List ScheduleEntry))
    (courses : List StudentCourse) (overrides : List ProfessorOverride)
    (s : String) (d : Nat) :
    (courseSchedule slots data courses overrides s d =
        (match (allWrites slots data courses overrides).reverse.find?
            (fun w => w.1 == s && w.2.1 == d) with
          | some w => some w.2.2
          | none => none))
      ∧ (allWrites slots data courses overrides).reverse.find?
            (fun w => w.1 == s && w.2.1 == d) =
          ((overrides.flatMap (overrideWrites slots courses)).reverse.find?
              (fun w => w.1 == s && w.2.1 == d)).or
            ((courses.flatMap (defaultWrites slots data
                (overrides.map (fun o => o.courseId)))).reverse.find?
              (fun w => w.1 == s && w.2.1 == d)) := by
  constructor
  · rw [courseSchedule_eq_writes, applyWrites_lookup]
    cases (allWrites slots data courses overrides).reverse.find?
        (fun w => w.1 == s && w.2.1 == d) <;> rfl
  · unfold allWrites
    rw [List.reverse_append, List.find?_append]

/-- C3.  Override precedence: whenever a cell of the grid holds a course
whose identifier has an active override, that cell comes from some
override's schedule entry (by the same 2-slot expansion `entryCells`) —
never from the course's default schedule, even when a default schedule
entry exists for it. -/
theorem C3_override_precedence (slots : List TimeSlot)
    (data : String → Option (List ScheduleEntry))
    (courses : List StudentCourse) (overrides : List ProfessorOverride)
    (v : StudentCourse)
    (hov : v.course.id ∈ overrides.map (fun o => o.courseId))
    (hdef : data v.course.id ≠ none)
    (s : String) (d : Nat)
    (hcell : courseSchedule slots data courses overrides s d = some v) :
    ∃ ov ∈ overrides, ov.courseId = v.course.id ∧
      ∃ e ∈ ov.schedule, (s, d) ∈ entryCells slots e := by
  rw [courseSchedule_eq_writes, applyWrites_lookup] at hcell
  cases hfind : (allWrites slots data courses overrides).reverse.find?
      (fun w => w.1 == s && w.2.1 == d) with
  | none =>
    rw [hfind] at hcell
    exact Option.noConfusion hcell
  | some w =>
    rw [hfind] at hcell
    have hval : w.2.2 = v := Option.some.inj hcell
    have hpred := List.find?_some hfind
    simp only [Bool.and_eq_true, beq_iff_eq] at hpred
    have hmem : w ∈ allWrites slots data courses overrides :=
      List.mem_reverse.mp (List.mem_of_find?_eq_some hfind)
    unfold allWrites at hmem
    rw [List.mem_append] at hmem
    cases hmem with
    | inl hmem =>
      exfalso
      obtain ⟨c, hc, hw⟩ := List.mem_flatMap.mp hmem
      unfold defaultWrites at hw
      by_cases hcontains :
          (overrides.map (fun o => o.courseId)).contains c.course.id
      · rw [if_pos hcontains] at hw
        exact List.not_mem_nil w hw
      · rw [if_neg hcontains] at hw
        cases hdata : data c.course.id with
        | none =>
          rw [hdata] at hw
          exact List.not_mem_nil w hw
        | some times =>
          rw [hdata] at hw
          obtain ⟨e, _, hw2⟩ := List.mem_flatMap.mp hw
          obtain ⟨cell, _, hwc⟩ := List.mem_map.mp hw2
          have hcv : c = v := by
            rw [← hval, ← hwc]
          exact hcontains (List.elem_eq_true_of_mem (hcv ▸ hov))
    | inr hmem =>
      obtain ⟨ov, hovmem, hw⟩ := List.mem_flatMap.mp hmem
      unfold overrideWrites at hw
      cases hfc : courses.find? (fun c => c.course.id == ov.courseId) with
      | none =>
        rw [hfc] at hw
        exact absurd hw (List.not_mem_nil w)
      | some c =>
        rw [hfc] at hw
        obtain ⟨e, he, hw2⟩ := List.mem_flatMap.mp hw
        obtain ⟨cell, hcellmem, hwc⟩ := List.mem_map.mp hw2
        have hcid : c.course.id = ov.courseId := by
          have := List.find?_some hfc
          simpa using this
        have hcv : c = v := by
          rw [← hval, ← hwc]
        refine ⟨ov, hovmem, by rw [← hcid, hcv], e, he, ?_⟩
        have hc1 : cell.1 = s := by
          rw [← hpred.1, ← hwc]
        have hc2 : cell.2 = d := by
          rw [← hpred.2, ← hwc]
        have : (s, d) = cell := by
          rw [← hc1, ← hc2]
        rw [this]
        exact hcellmem

/-- The ordered slot list used by the concrete timetable examples. -/
def slotsW : List TimeSlot :=
  [{ id := "08:00", label := "08:00" }, { id := "09:40", label := "09:40" },
    { id := "11:20", label := "11:20" }]

/-- A concrete in-progress course for the timetable examples. -/
def courseT : StudentCourse :=
  { course := { id := "INE5401", name := "Intro", credits := 4 },
    status := CourseStatus.inProgress }

/-- Default schedule data for the examples: `INE5401` meets Monday
(day 0) at 08:00. -/
def dataW : String → Option (List ScheduleEntry) := fun cid =>
  if cid = "INE5401" then some [{ day := 0, startTime := "08:00" }] else none

/-- An override moving `INE5401` to day 1 at 09:40. -/
def overrideW : ProfessorOverride :=
  { courseId := "INE5401", professorId := "prof1",
    schedule := [{ day := 1, startTime := "09:40" }] }

/-- C3 witness: with `courseT` overridden to day 1 09:40, the cell
(09:40, day 1) holds the course, and the theorem locates an override
entry whose expansion covers that cell.  The default (08:00, day 0)
cells are empty. -/
theorem C3_override_precedence_witness :
    courseT.course.id ∈ [overrideW].map (fun o => o.courseId)
      ∧ dataW courseT.course.id ≠ none
      ∧ courseSchedule slotsW dataW [courseT] [overrideW] "09:40" 1 =
          some courseT
      ∧ courseSchedule slotsW dataW [courseT] [overrideW] "08:00" 0 = none
      ∧ ∃ ov ∈ [overrideW], ov.courseId = courseT.course.id ∧
          ∃ e ∈ ov.schedule, ("09:40", 1) ∈ entryCells slotsW e := by
  refine ⟨by decide, by decide, by decide, by decide, ?_⟩
  exact C3_override_precedence slotsW dataW [courseT] [overrideW] courseT
    (by decide) (by decide) "09:40" 1 (by decide)

/-- C2.  Two-slot expansion: processing a schedule entry `{day, startTime}`
writes the course into exactly the cells `entryCells` — the start slot's
cell and, unless the start slot is last, the immediately following
slot's cell — leaving every other cell unchanged; when the start time
matches no slot id the entry writes nothing (and the total function
raises nothing).  A single in-progress course with that one default
entry and no override yields exactly that grid. -/
theorem C2_two_slot_expansion (slots : List TimeSlot) (c : StudentCourse)
    (g : Grid) (e : ScheduleEntry) :
    (∀ (s : String) (d : Nat), applyEntry slots c g e s d =
        if (s, d) ∈ entryCells slots e then some c else g s d)
      ∧ (∀ i, slots.findIdx? (fun sl => sl.id == e.startTime) = some i →
          (∀ h2 : i + 1 < slots.length, entryCells slots e =
              [(e.startTime, e.day), ((slots.get ⟨i + 1, h2⟩).id, e.day)])
            ∧ (¬ i + 1 < slots.length →
              entryCells slots e = [(e.startTime, e.day)]))
      ∧ (slots.findIdx? (fun sl => sl.id == e.startTime) = none →
          entryCells slots e = [] ∧ applyEntry slots c g e = g)
      ∧ courseSchedule slots
            (fun cid => if cid = c.course.id then some [e] else none) [c] [] =
          applyEntry slots c emptyGrid e := by
  refine ⟨?_, ?_, ?_, ?_⟩
  · intro s d
    rw [applyEntry_eq_writes, applyWrites_lookup]
    by_cases hm : (s, d) ∈ entryCells slots e
    · rw [if_pos hm]
      cases hfind : (entryWrites slots c e).reverse.find?
          (fun w => w.1 == s && w.2.1 == d) with
      | none =>
        exfalso
        have hwmem : ((s, d).1, (s, d).2, c) ∈ (entryWrites slots c e).reverse := by
          rw [List.mem_reverse]
          exact List.mem_map.mpr ⟨(s, d), hm, rfl⟩
        have := List.find?_eq_none.mp hfind _ hwmem
        simp at this
      | some w =>
        have hmem : w ∈ entryWrites slots c e :=
          List.mem_reverse.mp (List.mem_of_find?_eq_some hfind)
        obtain ⟨cell, _, hwc⟩ := List.mem_map.mp hmem
        have hval : w.2.2 = c := by rw [← hwc]
        show some w.2.2 = some c
        rw [hval]
    · rw [if_neg hm]
      cases hfind : (entryWrites slots c e).reverse.find?
          (fun w => w.1 == s && w.2.1 == d) with
      | none => rfl
      | some w =>
        exfalso
        have hpred := List.find?_some hfind
        simp only [Bool.and_eq_true, beq_iff_eq] at hpred
        have hmem : w ∈ entryWrites slots c e :=
          List.mem_reverse.mp (List.mem_of_find?_eq_some hfind)
        obtain ⟨cell, hcellmem, hwc⟩ := List.mem_map.mp hmem
        have hc1 : cell.1 = s := by rw [← hpred.1, ← hwc]
        have hc2 : cell.2 = d := by rw [← hpred.2, ← hwc]
        have : (s, d) = cell := by rw [← hc1, ← hc2]
        exact hm (this ▸ hcellmem)
  · intro i hfi
    constructor
    · intro h2
      unfold entryCells
      rw [hfi]
      show (if h : i + 1 < slots.length then
          [(e.startTime, e.day), ((slots.get ⟨i + 1, h⟩).id, e.day)]
        else [(e.startTime, e.day)]) = _
      rw [dif_pos h2]
    · intro h2
      unfold entryCells
      rw [hfi]
      show (if h : i + 1 < slots.length then
          [(e.startTime, e.day), ((slots.get ⟨i + 1, h⟩).id, e.day)]
        else [(e.startTime, e.day)]) = _
      rw [dif_neg h2]
  · intro hnone
    constructor
    · unfold entryCells
      rw [hnone]
    · unfold applyEntry
      rw [hnone]
  · have hdata : ((fun cid => if cid = c.course.id then some [e] else none)
        c.course.id) = some [e] := if_pos rfl
    show ((if (([] : List ProfessorOverride).map
          (fun o => o.courseId)).contains c.course.id then emptyGrid
        else
          match (fun cid => if cid = c.course.id then some [e] else none)
              c.course.id with
          | none => emptyGrid
          | some times => times.foldl (applyEntry slots c) emptyGrid)) = _
    rw [hdata]
    simp

/-- C2 witness: for the entry day 1 at 08:00 on the three-slot list the
occupied cells are (08:00, 1) and (09:40, 1); both hold the course and
an untouched cell stays empty; an entry with unknown start time 07:00
leaves the grid unchanged. -/
theorem C2_two_slot_expansion_witness :
    (List.findIdx? (fun sl => sl.id == "08:00") slotsW = some 0
        ∧ entryCells slotsW { day := 1, startTime := "08:00" } =
          [("08:00", 1), ("09:40", 1)])
      ∧ applyEntry slotsW courseT emptyGrid
          { day := 1, startTime := "08:00" } "09:40" 1 = some courseT
      ∧ (List.findIdx? (fun sl => sl.id == "07:00") slotsW = none
        ∧ applyEntry slotsW courseT emptyGrid
            { day := 1, startTime := "07:00" } = emptyGrid) := by
  have h := C2_two_slot_expansion slotsW courseT emptyGrid
    { day := 1, startTime := "08:00" }
  have h7 := C2_two_slot_expansion slotsW courseT emptyGrid
    { day := 1, startTime := "07:00" }
  refine ⟨⟨by decide, ?_⟩, ?_, by decide, (h7.2.2.1 (by decide)).2⟩
  · have := (h.2.1 0 (by decide)).1 (by decide)
    rw [this]
    decide
  · rw [h.1 "09:40" 1]
    decide

/-! ## Professor override parsing (`handleProfessorSelect`) -/

/-- JavaScript `String.prototype.split` with a single-character
separator, on the character list: always returns at least one piece,
empty pieces included. -/
def jsSplitChars (sep : Char) : List Char → List (List Char)
  | [] => [[]]
  | ch :: rest =>
    let r := jsSplitChars sep rest
    if ch = sep then [] :: r
    else
      match r with
      | [] => [[ch]]
      | piece :: pieces => (ch :: piece) :: pieces

/-- JavaScript `text.split(sep)` for a one-character separator. -/
def jsSplit (sep : Char) (text : String) : List String :=
  (jsSplitChars sep text.toList).map (fun piece => String.mk piece)

/-- The schedule-text parsing inside `handleProfessorSelect` (timetable
component, lines 56-82): split the text on the space into a days part
and a time part, the days part on `/` into day names, the time part on
`-` into start and end time; every listed day name found in the day map
yields one `{day, startTime}` entry at the start time; unknown day names
and a falsy start time are skipped; the end time is never examined.
`daysMap` models `TIMETABLE.DAYS_MAP` (a config constant not among the
sources). -/
def parseProfessorSchedule (daysMap : String → Option Nat)
    (scheduleText : String) : List ScheduleEntry :=
  if scheduleText = "" then []
  else
    match jsSplit ' ' scheduleText with
    | daysPart :: timePart :: _ =>
      let daysList := jsSplit '/' daysPart
      let startTime := (jsSplit '-' timePart).headD ""
      daysList.foldl (fun acc dayName =>
        match daysMap dayName with
        | none => acc
        | some dayIndex =>
          if startTime = "" then acc
          else acc ++ [{ day := dayIndex, startTime := startTime }]) []
    | _ => []

/-- The override-list update of `handleProfessorSelect` (lines 85-91):
drop any previous override for the course and append the new one. -/
def updateOverrides (prev : List ProfessorOverride)
    (courseId professorId : String) (entries : List ScheduleEntry) :
    List ProfessorOverride :=
  prev.filter (fun o => !(o.courseId == courseId)) ++
    [{ courseId := courseId, professorId := professorId,
       schedule := entries }]

theorem parseProfessorSchedule_foldl (daysMap : String → Option Nat)
    (startTime : String) (hst : startTime ≠ "") :
    ∀ (days : List String) (acc : List ScheduleEntry),
      days.foldl (fun acc dayName =>
          match daysMap dayName with
          | none => acc
          | some dayIndex =>
            if startTime = "" then acc
            else acc ++ [{ day := dayIndex, startTime := startTime }]) acc =
        acc ++ days.filterMap (fun dayName =>
          (daysMap dayName).map
            (fun dayIndex => { day := dayIndex, startTime := startTime })) := by
  intro days
  induction days with
  | nil => intro acc; simp
  | cons dayName rest ih =>
    intro acc
    simp only [List.foldl_cons, List.filterMap_cons]
    cases hd : daysMap dayName with
    | none => exact ih acc
    | some dayIndex =>
      show rest.foldl (fun acc dayName =>
          match daysMap dayName with
          | none => acc
          | some dayIndex =>
            if startTime = "" then acc
            else acc ++ [{ day := dayIndex, startTime := startTime }])
        (if startTime = "" then acc
          else acc ++ [{ day := dayIndex, startTime := startTime }]) =
        acc ++ ({ day := dayIndex, startTime := startTime } ::
          rest.filterMap (fun dayName =>
            (daysMap dayName).map
              (fun dayIndex => { day := dayIndex, startTime := startTime })))
      rw [if_neg hst, ih, List.append_assoc]
      rfl

/-- C6.  Professor-override schedule parsing: when the schedule text
splits on the space into a days part and a time part, the days part
splits on `/` into the day names, and the time part splits on `-` with a
non-empty start time, the parse yields exactly one `{day, startTime}`
entry per listed day name present in the day map — all at the start
time, day names missing from the map yielding nothing, the end time
never being consulted. -/
theorem C6_professor_schedule_parsing (daysMap : String → Option Nat)
    (text daysPart timePart : String) (restParts : List String)
    (days : List String) (startTime : String) (restTimes : List String)
    (hsplit : jsSplit ' ' text = daysPart :: timePart :: restParts)
    (hdays : jsSplit '/' daysPart = days)
    (htime : jsSplit '-' timePart = startTime :: restTimes)
    (hst : startTime ≠ "") :
    parseProfessorSchedule daysMap text =
      days.filterMap (fun dayName =>
        (daysMap dayName).map
          (fun dayIndex => { day := dayIndex, startTime := startTime })) := by
  have hne : text ≠ "" := by
    intro hcon
    subst hcon
    rw [show jsSplit ' ' "" = [""] from rfl] at hsplit
    exact List.noConfusion (List.cons.inj hsplit).2
  unfold parseProfessorSchedule
  rw [if_neg hne, hsplit]
  show (jsSplit '/' daysPart).foldl (fun (acc : List ScheduleEntry) dayName =>
      match daysMap dayName with
      | none => acc
      | some dayIndex =>
        if (jsSplit '-' timePart).headD "" = "" then acc
        else acc ++ [{ day := dayIndex, startTime := (jsSplit '-' timePart).headD "" }]) [] =
    days.filterMap (fun dayName =>
      (daysMap dayName).map
        (fun dayIndex => ({ day := dayIndex, startTime := startTime } : ScheduleEntry)))
  rw [hdays, htime]
  rw [show (startTime :: restTimes).headD "" = startTime from rfl]
  rw [parseProfessorSchedule_foldl daysMap startTime hst days []]
  rfl

/-- The day map of the concrete parsing example: Terca is day 1 and
Quinta is day 3. -/
def daysMapW : String → Option Nat := fun dayName =>
  if dayName = "Terca" then some 1
  else if dayName = "Quinta" then some 3
  else none

/-- C6 witness: `"Terca/Quinta 13:30-15:10"` parses to one entry per
known day, both at 13:30; the unknown day `"Sab"` in
`"Sab/Quinta 13:30-15:10"` contributes nothing. -/
theorem C6_professor_schedule_parsing_witness :
    jsSplit ' ' "Terca/Quinta 13:30-15:10" =
        ["Terca/Quinta", "13:30-15:10"]
      ∧ parseProfessorSchedule daysMapW "Terca/Quinta 13:30-15:10" =
          [{ day := 1, startTime := "13:30" },
            { day := 3, startTime := "13:30" }]
      ∧ parseProfessorSchedule daysMapW "Sab/Quinta 13:30-15:10" =
          [{ day := 3, startTime := "13:30" }] := by
  refine ⟨by decide, ?_, ?_⟩
  · rw [C6_professor_schedule_parsing daysMapW "Terca/Quinta 13:30-15:10"
      "Terca/Quinta" "13:30-15:10" [] ["Terca", "Quinta"] "13:30" ["15:10"]
      (by decide) (by decide) (by decide) (by decide)]
    decide
  · rw [C6_professor_schedule_parsing daysMapW "Sab/Quinta 13:30-15:10"
      "Sab/Quinta" "13:30-15:10" [] ["Sab", "Quinta"] "13:30" ["15:10"]
      (by decide) (by decide) (by decide) (by decide)]
    decide

end SemesterPlanner
